import Mathlib

/-!
Verification of the MBTA REST client (`client.py`).

The pure core of the program is shallowly embedded below.  Python
dictionaries are modelled as association lists (`List (String × _)`) with
insertion-ordered keys, which matches how CPython dictionaries iterate.
Python sets are modelled as duplicate-free lists in first-insertion order
(Python leaves the iteration order of a set unspecified; nothing proved
below about set-backed data depends on a particular order except the
concrete evaluations, which are robust to reordering).  The HTTP layer is
an input: `all_stops : String → List Stop` stands for the per-route result
of `get_stops`, and `route_ids : List String` for the keys of the dict
returned by `get_routes`.
-/

deriving instance DecidableEq for Except

/-- A stop record as returned by the `/stops` endpoint: we keep the two
fields the core logic reads, `stop["id"]` and `stop["attributes"]["name"]`. -/
structure Stop where
  id : String
  name : String
deriving DecidableEq, Repr

/-- `d[k]` for a Python dict modelled as an association list: the value at
the first (and only) entry whose key is `k`, if any. -/
def dget {α : Type} : List (String × α) → String → Option α
  | [], _ => none
  | (k, v) :: rest, key => if k = key then some v else dget rest key

/-- One step of `stops_to_routes`: `stops_to_route[name] = [r]` when the key
is new, `stops_to_route[name].append(r)` when it exists.  New keys go to the
end of the association list, as in a Python dict. -/
def dsetAppend : List (String × List String) → String → String → List (String × List String)
  | [], key, v => [(key, [v])]
  | (k, l) :: rest, key, v =>
    if k = key then (k, l ++ [v]) :: rest else (k, l) :: dsetAppend rest key v

/-- `stops_to_routes` from `client.py` (lines 159-167): for every route id,
for every stop record of that route, append the route id to the list keyed
by the stop's name. -/
def stops_to_routes (route_ids : List String) (all_stops : String → List Stop) :
    List (String × List String) :=
  route_ids.foldl
    (fun acc r => (all_stops r).foldl (fun acc2 stop => dsetAppend acc2 stop.name r) acc)
    []

/-- Python `s.add(x)` / set-insertion for a set modelled as a duplicate-free
list in insertion order. -/
def pyInsert (s : List String) (x : String) : List String :=
  if x ∈ s then s else s ++ [x]

/-- Python `s.union(set(t))` for sets modelled as duplicate-free lists. -/
def listUnion (s t : List String) : List String :=
  t.foldl pyInsert s

/-- The body of the graph-construction loop in `find_path` (lines 192-195):
`if r not in graph: graph[r] = set({})` followed by
`graph[r] = graph[r].union(set(routes))`. -/
def dupdateUnion : List (String × List String) → String → List String → List (String × List String)
  | [], r, routes => [(r, listUnion [] routes)]
  | (k, s) :: rest, r, routes =>
    if k = r then (k, listUnion s routes) :: rest else (k, s) :: dupdateUnion rest r routes

/-- The Route Adjacency Graph built inside `find_path` (lines 188-198): for
every stop, every route serving it has its adjacency set unioned with the
full route list of that stop.  The final `graph[v] = list(graph[v])`
conversion is the identity in this model. -/
def buildGraph (stops_map : List (String × List String)) : List (String × List String) :=
  stops_map.foldl
    (fun g p => p.2.foldl (fun g2 r => dupdateUnion g2 r p.2) g)
    []

/-- The adjacency list of a route in a graph (empty if the route is not a
key of the graph). -/
def adjOf (g : List (String × List String)) (k : String) : List String :=
  (dget g k).getD []

/-- The keys of a graph, in insertion order. -/
def keysOf (g : List (String × List String)) : List String :=
  g.map Prod.fst

/-- Outcome of the `while queue:` search loop in `find_path`. -/
inductive LoopRes where
  | found : List String → LoopRes
  | exhausted : LoopRes
  | errKey : String → LoopRes
deriving DecidableEq, Repr

/-- The inner `for neighbor in graph[vertex]:` loop of `find_path`
(lines 224-230).  The queue is modelled head-first: Python's
`queue.append` adds at the end of the list and `queue.pop()` removes from
the end, so the end of the Python list is the head here and `append`
becomes cons.  Returns the early-returned path (if a neighbor equals the
target), the updated visited set and the updated queue. -/
def processNeighbors (e : String) (path : List String) :
    List String → List String → List (String × List String) →
    Option (List String) × List String × List (String × List String)
  | [], visited, queue => (none, visited, queue)
  | nb :: rest, visited, queue =>
    if nb = e then (some (path ++ [e]), visited, queue)
    else if nb ∈ visited then processNeighbors e path rest visited queue
    else processNeighbors e path rest (visited ++ [nb]) ((nb, path ++ [nb]) :: queue)

/-- The `while queue:` loop of `find_path` (lines 220-231), with an explicit
fuel parameter to express the recursion in Lean.  `none` means the fuel ran
out; `find_path` supplies fuel `graph.length + 1` and the termination
theorem below shows the fuel case is never reached.  On an empty queue the
Python loop falls through to the not-found diagnostic. -/
def searchLoop (graph : List (String × List String)) (e : String) :
    Nat → List String → List (String × List String) → Option LoopRes
  | _, _, [] => some LoopRes.exhausted
  | 0, _, _ :: _ => none
  | fuel + 1, visited, (vertex, path) :: rest =>
    if vertex = e then some (LoopRes.found (path ++ [e]))
    else
      match dget graph vertex with
      | none => some (LoopRes.errKey vertex)
      | some nbs =>
        match processNeighbors e path nbs visited rest with
        | (some p, _, _) => some (LoopRes.found p)
        | (none, visited', queue') => searchLoop graph e fuel visited' queue'

/-- Exceptions `find_path` can raise: `keyError s` models Python's
`KeyError(s)` (a subclass of `LookupError`), `indexError` models an
`IndexError` from `graph[start][0]`, and `fuelOut` is the artificial
fuel-exhaustion outcome proved unreachable below. -/
inductive PyErr where
  | keyError : String → PyErr
  | indexError : PyErr
  | fuelOut : PyErr
deriving DecidableEq, Repr

/-- Normal-return outcomes of `find_path`: a route list, the bare `None`
return after the unknown-location prints (lines 207-212), or the `None`
return after the not-found diagnostic naming both stops (line 231). -/
inductive PathOut where
  | path : List String → PathOut
  | noneRet : PathOut
  | notFound : String → String → PathOut
deriving DecidableEq, Repr

/-- `find_path` from `client.py` (lines 170-231).  The per-route stop lists
are an input (`all_stops`, the result of the `get_stops` calls).  Lookups
`stops_map[stop1]` and `stops_map[stop2]` raise `KeyError` on absent keys;
the equality short-circuit returns the start list; the empty-list branches
mirror the `if not start or not end: return`; otherwise the search runs
from `graph[start][0]` with initial path `[start]`. -/
def find_path (stop1 stop2 : String) (route_ids : List String)
    (all_stops : String → List Stop) : Except PyErr PathOut :=
  let stops_map := stops_to_routes route_ids all_stops
  let graph := buildGraph stops_map
  match dget stops_map stop1 with
  | none => Except.error (PyErr.keyError stop1)
  | some start0 =>
    match dget stops_map stop2 with
    | none => Except.error (PyErr.keyError stop2)
    | some end0 =>
      if start0 = end0 then Except.ok (PathOut.path start0)
      else
        match start0, end0 with
        | [], _ => Except.ok PathOut.noneRet
        | _ :: _, [] => Except.ok PathOut.noneRet
        | s :: _, e :: _ =>
          match dget graph s with
          | none => Except.error (PyErr.keyError s)
          | some adjS =>
            match adjS with
            | [] => Except.error PyErr.indexError
            | a0 :: _ =>
              match searchLoop graph e (graph.length + 1) [] [(a0, [s])] with
              | none => Except.error PyErr.fuelOut
              | some (LoopRes.found p) => Except.ok (PathOut.path p)
              | some LoopRes.exhausted => Except.ok (PathOut.notFound stop1 stop2)
              | some (LoopRes.errKey v) => Except.error (PyErr.keyError v)

/-- The running-max update of `print_stats` (lines 131-132): the Python
sentinel `(None, -1)` is modelled by `none`; every stop count is a natural
number, hence `num_stops > -1` always holds on the first route. -/
def stepMost (acc : Option (String × Nat)) (r : String) (num_stops : Nat) :
    Option (String × Nat) :=
  match acc with
  | none => some (r, num_stops)
  | some (rm, m) => if num_stops > m then some (r, num_stops) else some (rm, m)

/-- The running-min update of `print_stats` (lines 133-134): the Python
sentinel `(None, float("inf"))` is modelled by `none`; `num_stops < inf`
always holds on the first route. -/
def stepLeast (acc : Option (String × Nat)) (r : String) (num_stops : Nat) :
    Option (String × Nat) :=
  match acc with
  | none => some (r, num_stops)
  | some (rl, m) => if num_stops < m then some (r, num_stops) else some (rl, m)

/-- The single pass of `print_stats` over `route_ids` tracking the running
max and min together (lines 126-134). -/
def mostLeastLoop (count : String → Nat) (route_ids : List String) :
    Option (String × Nat) × Option (String × Nat) :=
  route_ids.foldl
    (fun acc r => (stepMost acc.1 r (count r), stepLeast acc.2 r (count r)))
    (none, none)

/-- What `print_stats` (lines 113-145) computes and prints: the route with
the most stops, the route with the fewest stops, and the index entries with
two or more routes (the transfer-stop listing). -/
structure StatsOut where
  most : Option (String × Nat)
  least : Option (String × Nat)
  transfers : List (String × List String)
deriving DecidableEq, Repr

/-- The computation of `print_stats`: stop counts are the sizes of the
per-route stop dictionaries, i.e. the lengths of the stop lists. -/
def print_stats (route_ids : List String) (all_stops : String → List Stop) : StatsOut :=
  let ml := mostLeastLoop (fun r => (all_stops r).length) route_ids
  { most := ml.1
    least := ml.2
    transfers := (stops_to_routes route_ids all_stops).filter (fun p => p.2.length > 1) }

/-- Number of occurrences of a route id in a list of route ids. -/
def countOcc (x : String) : List String → Nat
  | [] => 0
  | y :: rest => (if y = x then 1 else 0) + countOcc x rest

/-- Number of stop records carrying a given name in a stop list. -/
def countName (name : String) : List Stop → Nat
  | [] => 0
  | s :: rest => (if s.name = name then 1 else 0) + countName name rest

/-- Consecutive-adjacency check for a sequence of route ids in a graph. -/
def chainB (g : List (String × List String)) : List String → Bool
  | [] => true
  | [_] => true
  | x :: y :: rest => decide (y ∈ adjOf g x) && chainB g (y :: rest)

/-- `connectsSeq g a b l` holds when `l` is a sequence of route ids that
starts at `a`, ends at `b`, and steps only along adjacencies of `g`. -/
def connectsSeq (g : List (String × List String)) (a b : String) (l : List String) : Bool :=
  (l.head? == some a) && (l.getLast? == some b) && chainB g l

/-- Python `str.upper()`, modelled character by character.  (The library
`String.toUpper` is definitionally opaque to the kernel; this structural
version agrees with it and with Python on the ASCII route names the
program handles.) -/
def pyUpper (s : String) : String :=
  String.mk (s.data.map Char.toUpper)

/-- The command-line arguments `main` reads (lines 238-239): the `-stops`
route name, the stats flag and the path request.  The type filter does not
influence the control flow modelled here. -/
structure CliArgs where
  id : String
  stats : Bool
  path : String
deriving DecidableEq, Repr

/-- Observable actions of `main`, in execution order. -/
inductive MainEvent where
  | listedRoutes : MainEvent
  | unknownRoute : String → MainEvent
  | listedStops : String → MainEvent
  | ranStats : MainEvent
  | ranPath : String → MainEvent
deriving DecidableEq, Repr

/-- The control flow of `main` (lines 234-272): all routes are always
listed; a non-empty route name is upper-cased and, when it is not a fetched
route id, `main` prints the unknown-route diagnostic and returns at once
(line 257); otherwise the stops are listed; afterwards the stats and path
computations run when requested.  (Upper-casing a non-empty string yields a
non-empty string, so branching on the original argument's emptiness matches
the Python truthiness test on the normalized name.) -/
def mainEvents (args : CliArgs) (route_ids : List String) : List MainEvent :=
  let tail :=
    (if args.stats then [MainEvent.ranStats] else []) ++
    (if args.path ≠ "" then [MainEvent.ranPath args.path] else [])
  if args.id = "" then
    MainEvent.listedRoutes :: tail
  else
    let route_id := pyUpper args.id
    if route_id ∉ route_ids then
      [MainEvent.listedRoutes, MainEvent.unknownRoute route_id]
    else
      MainEvent.listedRoutes :: MainEvent.listedStops route_id :: tail

/-! ## Concrete networks used by the witnesses and counterexamples -/

/-- Scenario A of the spec: routes Red and Blue. -/
def scenarioRoutes : List String := ["Red", "Blue"]

/-- Scenario A of the spec: Red serves StopX and StopY, Blue serves StopY
(under a different stop id, as the API does per route) and StopZ. -/
def scenarioStops : String → List Stop := fun r =>
  if r = "Red" then [⟨"place-x", "StopX"⟩, ⟨"place-y1", "StopY"⟩]
  else if r = "Blue" then [⟨"place-y2", "StopY"⟩, ⟨"place-z", "StopZ"⟩]
  else []

/-- Network for the shortest-path failing input: Red serves StopX and
StopY, Blue serves only StopY. -/
def cexRoutes : List String := ["Red", "Blue"]

/-- Stop lists of the shortest-path failing input. -/
def cexStops : String → List Stop := fun r =>
  if r = "Red" then [⟨"r-x", "StopX"⟩, ⟨"r-y", "StopY"⟩]
  else if r = "Blue" then [⟨"b-y", "StopY"⟩]
  else []

/-- Two disconnected route clusters: Red serves only StopA, Blue serves
only StopZ. -/
def discRoutes : List String := ["Red", "Blue"]

/-- Stop lists of the disconnected network. -/
def discStops : String → List Stop := fun r =>
  if r = "Red" then [⟨"r-a", "StopA"⟩]
  else if r = "Blue" then [⟨"b-z", "StopZ"⟩]
  else []

/-- A single route with two distinct stop records sharing one name. -/
def dupRoutes : List String := ["Red"]

/-- Stop lists of the duplicate-name network. -/
def dupStops : String → List Stop := fun r =>
  if r = "Red" then [⟨"r-x1", "StopX"⟩, ⟨"r-x2", "StopX"⟩]
  else []


/-! ## Dictionary lemmas -/

theorem dget_mem {α : Type} (k : String) (v : α) :
    ∀ d : List (String × α), dget d k = some v → (k, v) ∈ d := by
  intro d
  induction d with
  | nil => intro h; simp [dget] at h
  | cons p rest ih =>
    intro h
    obtain ⟨k', v'⟩ := p
    by_cases hk : k' = k
    · subst hk
      simp [dget] at h
      subst h
      exact List.mem_cons_self _ _
    · simp [dget, hk] at h
      exact List.mem_cons_of_mem _ (ih h)

theorem dget_dsetAppend (key v name : String) :
    ∀ d : List (String × List String),
      dget (dsetAppend d key v) name =
        if name = key then some (((dget d name).getD []) ++ [v]) else dget d name := by
  intro d
  induction d with
  | nil =>
    by_cases h : name = key
    · subst h; simp [dsetAppend, dget]
    · simp [dsetAppend, dget, h, Ne.symm h]
  | cons p rest ih =>
    obtain ⟨k, l⟩ := p
    by_cases hk : k = key
    · subst hk
      by_cases hn : name = k
      · subst hn; simp [dsetAppend, dget]
      · simp [dsetAppend, dget, hn, Ne.symm hn]
    · by_cases hn : k = name
      · subst hn
        simp [dsetAppend, dget, hk, Ne.symm hk]
      · simp [dsetAppend, dget, hk, hn, ih]

/-! ## Occurrence counting -/

theorem countOcc_append (x : String) (l1 l2 : List String) :
    countOcc x (l1 ++ l2) = countOcc x l1 + countOcc x l2 := by
  induction l1 with
  | nil => simp [countOcc]
  | cons y t ih => simp [countOcc, ih, Nat.add_assoc]

theorem countOcc_pos (x : String) : ∀ l : List String, x ∈ l ↔ 0 < countOcc x l := by
  intro l
  induction l with
  | nil => simp [countOcc]
  | cons y t ih =>
    by_cases h : y = x
    · subst h; simp [countOcc]
    · simp [countOcc, h, Ne.symm h, ih]

theorem countOcc_le_length (x : String) : ∀ l : List String, countOcc x l ≤ l.length := by
  intro l
  induction l with
  | nil => simp [countOcc]
  | cons y t ih =>
    simp only [countOcc, List.length_cons]
    by_cases h : y = x <;> simp [h] <;> omega

theorem countName_pos (name : String) :
    ∀ l : List Stop, (∃ s ∈ l, s.name = name) ↔ 0 < countName name l := by
  intro l
  induction l with
  | nil => simp [countName]
  | cons s t ih =>
    by_cases h : s.name = name
    · simp [countName, h]
    · simp [countName, h, ih]

theorem countOcc_eq_one_of_nodup (r : String) :
    ∀ ids : List String, ids.Nodup → r ∈ ids → countOcc r ids = 1 := by
  intro ids
  induction ids with
  | nil => simp
  | cons i t ih =>
    intro hnd hmem
    rw [List.nodup_cons] at hnd
    by_cases h : i = r
    · subst h
      have h0 : ¬ 0 < countOcc i t := by rw [← countOcc_pos]; exact hnd.1
      simp [countOcc]
      omega
    · rcases List.mem_cons.mp hmem with h1 | h1
      · exact absurd h1.symm h
      · simp [countOcc, h, ih hnd.2 h1]

/-! ## Characterization of the Stop-Route Index -/

theorem count_inner_fold (r0 name r : String) :
    ∀ (stops : List Stop) (d : List (String × List String)),
      countOcc r ((dget (stops.foldl (fun a s => dsetAppend a s.name r0) d) name).getD []) =
        countOcc r ((dget d name).getD []) +
          (if r = r0 then countName name stops else 0) := by
  intro stops
  induction stops with
  | nil => intro d; simp [countName]
  | cons s t ih =>
    intro d
    simp only [List.foldl_cons]
    rw [ih, dget_dsetAppend]
    by_cases hn : name = s.name
    · rw [if_pos hn]
      simp only [Option.getD_some, countOcc_append]
      by_cases hr : r = r0
      · subst hr
        simp [countOcc, countName, hn.symm]
        omega
      · simp [countOcc, countName, hr, Ne.symm hr]
    · rw [if_neg hn]
      by_cases hr : r = r0
      · subst hr
        simp [countName, Ne.symm hn]
      · simp [hr]

theorem count_outer_fold (name r : String) (all_stops : String → List Stop) :
    ∀ (ids : List String) (d : List (String × List String)),
      countOcc r
          ((dget
              (ids.foldl
                (fun acc i => (all_stops i).foldl (fun a s => dsetAppend a s.name i) acc) d)
              name).getD []) =
        countOcc r ((dget d name).getD []) +
          countOcc r ids * countName name (all_stops r) := by
  intro ids
  induction ids with
  | nil => intro d; simp [countOcc]
  | cons i t ih =>
    intro d
    simp only [List.foldl_cons]
    rw [ih, count_inner_fold]
    by_cases hr : r = i
    · subst hr
      simp [countOcc]
      ring
    · simp [countOcc, hr, Ne.symm hr]

/-- The counting law of the Stop-Route Index: a route id occurs in the
entry of a stop name once per occurrence of the route in `route_ids` and
per stop record of that route carrying the name. -/
theorem count_stops_to_routes (route_ids : List String) (all_stops : String → List Stop)
    (name r : String) :
    countOcc r ((dget (stops_to_routes route_ids all_stops) name).getD []) =
      countOcc r route_ids * countName name (all_stops r) := by
  have h := count_outer_fold name r all_stops route_ids []
  simpa [stops_to_routes, dget, countOcc] using h

/-- Membership law of the Stop-Route Index. -/
theorem mem_stops_to_routes (route_ids : List String) (all_stops : String → List Stop)
    (name r : String) :
    r ∈ (dget (stops_to_routes route_ids all_stops) name).getD [] ↔
      r ∈ route_ids ∧ ∃ s ∈ all_stops r, s.name = name := by
  rw [countOcc_pos, count_stops_to_routes, countOcc_pos, countName_pos]
  constructor
  · intro h
    constructor
    · rcases Nat.eq_zero_or_pos (countOcc r route_ids) with h0 | h0
      · rw [h0] at h; simp at h
      · exact h0
    · rcases Nat.eq_zero_or_pos (countName name (all_stops r)) with h0 | h0
      · rw [h0] at h; simp at h
      · exact h0
  · intro h
    exact Nat.mul_pos h.1 h.2

/-! ## Characterization of the Route Adjacency Graph -/

theorem mem_pyInsert (x y : String) (s : List String) :
    x ∈ pyInsert s y ↔ x ∈ s ∨ x = y := by
  by_cases h : y ∈ s
  · simp only [pyInsert, if_pos h]
    constructor
    · exact Or.inl
    · rintro (hx | rfl)
      · exact hx
      · exact h
  · simp [pyInsert, if_neg h]

theorem mem_listUnion (x : String) :
    ∀ (t s : List String), x ∈ listUnion s t ↔ x ∈ s ∨ x ∈ t := by
  intro t
  induction t with
  | nil => intro s; simp [listUnion]
  | cons y t' ih =>
    intro s
    have hstep : listUnion s (y :: t') = listUnion (pyInsert s y) t' := rfl
    rw [hstep, ih, mem_pyInsert]
    simp only [List.mem_cons]
    tauto

theorem dget_dupdateUnion (r : String) (routes : List String) (k : String) :
    ∀ g : List (String × List String),
      dget (dupdateUnion g r routes) k =
        if k = r then some (listUnion (adjOf g r) routes) else dget g k := by
  intro g
  induction g with
  | nil =>
    by_cases h : k = r
    · subst h; simp [dupdateUnion, dget, adjOf]
    · simp [dupdateUnion, dget, h, Ne.symm h]
  | cons p rest ih =>
    obtain ⟨k0, s⟩ := p
    by_cases h0 : k0 = r
    · subst h0
      by_cases hk : k = k0
      · subst hk; simp [dupdateUnion, dget, adjOf]
      · simp [dupdateUnion, dget, hk, Ne.symm hk]
    · by_cases hk : k0 = k
      · subst hk
        simp [dupdateUnion, dget, h0, Ne.symm h0, adjOf]
      · simp [dupdateUnion, dget, adjOf, h0, hk, ih]

theorem adj_inner_fold (R : List String) (k x : String) :
    ∀ (rs : List String) (g : List (String × List String)),
      x ∈ adjOf (rs.foldl (fun g2 r => dupdateUnion g2 r R) g) k ↔
        x ∈ adjOf g k ∨ (k ∈ rs ∧ x ∈ R) := by
  intro rs
  induction rs with
  | nil => intro g; simp
  | cons r rs' ih =>
    intro g
    simp only [List.foldl_cons]
    rw [ih]
    have hadj : adjOf (dupdateUnion g r R) k =
        if k = r then listUnion (adjOf g r) R else adjOf g k := by
      rw [adjOf, dget_dupdateUnion]
      by_cases h : k = r <;> simp [h, adjOf]
    rw [hadj]
    by_cases h : k = r
    · subst h
      simp [mem_listUnion, List.mem_cons]
      tauto
    · simp [if_neg h, List.mem_cons]
      tauto

theorem adj_outer_fold (k x : String) :
    ∀ (es g : List (String × List String)),
      x ∈ adjOf (es.foldl (fun g1 p => p.2.foldl (fun g2 r => dupdateUnion g2 r p.2) g1) g) k ↔
        x ∈ adjOf g k ∨ ∃ p ∈ es, k ∈ p.2 ∧ x ∈ p.2 := by
  intro es
  induction es with
  | nil => intro g; simp
  | cons p es' ih =>
    intro g
    simp only [List.foldl_cons]
    rw [ih, adj_inner_fold]
    constructor
    · rintro ((hx | ⟨hkp, hxp⟩) | ⟨q, hq, hkq, hxq⟩)
      · exact Or.inl hx
      · exact Or.inr ⟨p, List.mem_cons_self _ _, hkp, hxp⟩
      · exact Or.inr ⟨q, List.mem_cons_of_mem _ hq, hkq, hxq⟩
    · rintro (hx | ⟨q, hq, hkq, hxq⟩)
      · exact Or.inl (Or.inl hx)
      · rcases List.mem_cons.mp hq with rfl | hq'
        · exact Or.inl (Or.inr ⟨hkq, hxq⟩)
        · exact Or.inr ⟨q, hq', hkq, hxq⟩

/-- Adjacency in the graph built by `find_path` holds exactly between two
routes that appear together in some entry of the Stop-Route Index. -/
theorem mem_adj_buildGraph (m : List (String × List String)) (k x : String) :
    x ∈ adjOf (buildGraph m) k ↔ ∃ p ∈ m, k ∈ p.2 ∧ x ∈ p.2 := by
  have h := adj_outer_fold k x m []
  simpa [buildGraph, adjOf, dget] using h

/-- A graph is closed when every listed neighbor is itself a key. -/
def ClosedGraph (g : List (String × List String)) : Prop :=
  ∀ k l, dget g k = some l → ∀ x ∈ l, (dget g x).isSome = true

theorem buildGraph_closed (m : List (String × List String)) :
    ClosedGraph (buildGraph m) := by
  intro k l hdg x hx
  have hadj : x ∈ adjOf (buildGraph m) k := by rw [adjOf, hdg]; simpa using hx
  rw [mem_adj_buildGraph] at hadj
  obtain ⟨p, hp, _, hxp⟩ := hadj
  have hx2 : x ∈ adjOf (buildGraph m) x := (mem_adj_buildGraph m x x).mpr ⟨p, hp, hxp, hxp⟩
  rw [adjOf] at hx2
  rcases h2 : dget (buildGraph m) x with _ | l2
  · rw [h2] at hx2; simp at hx2
  · simp

/-! ## Claims C2, C3, C10 -/

/-- C2: the Stop-Route Index maps each stop name to exactly the routes
whose stop lists contain a stop of that name — no route missing, no extra
route — and on Scenario A it yields
`{StopX: [Red], StopY: [Red, Blue], StopZ: [Blue]}`. -/
theorem c2_index_symmetric_complete :
    (∀ (route_ids : List String) (all_stops : String → List Stop) (name r : String),
        r ∈ (dget (stops_to_routes route_ids all_stops) name).getD [] ↔
          r ∈ route_ids ∧ ∃ s ∈ all_stops r, s.name = name) ∧
      stops_to_routes scenarioRoutes scenarioStops =
        [("StopX", ["Red"]), ("StopY", ["Red", "Blue"]), ("StopZ", ["Blue"])] :=
  ⟨mem_stops_to_routes, by decide⟩

/-- C3: the Route Adjacency Graph built inside `find_path` is symmetric
(`b ∈ adjacency(a)` implies `a ∈ adjacency(b)`), and every route serving at
least one stop is a member of its own adjacency set. -/
theorem c3_graph_symmetric_reflexive (route_ids : List String)
    (all_stops : String → List Stop) :
    (∀ a b, b ∈ adjOf (buildGraph (stops_to_routes route_ids all_stops)) a →
        a ∈ adjOf (buildGraph (stops_to_routes route_ids all_stops)) b) ∧
      (∀ r ∈ route_ids, all_stops r ≠ [] →
        r ∈ adjOf (buildGraph (stops_to_routes route_ids all_stops)) r) := by
  constructor
  · intro a b hb
    rw [mem_adj_buildGraph] at hb ⊢
    obtain ⟨p, hp, ha, hb2⟩ := hb
    exact ⟨p, hp, hb2, ha⟩
  · intro r hr hne
    rcases hstops : all_stops r with _ | ⟨s0, rest⟩
    · exact absurd hstops hne
    · have hmem : r ∈ (dget (stops_to_routes route_ids all_stops) s0.name).getD [] := by
        rw [mem_stops_to_routes]
        exact ⟨hr, s0, by rw [hstops]; exact List.mem_cons_self _ _, rfl⟩
      rcases hdg : dget (stops_to_routes route_ids all_stops) s0.name with _ | l
      · rw [hdg] at hmem; simp at hmem
      · rw [hdg] at hmem
        simp only [Option.getD_some] at hmem
        exact (mem_adj_buildGraph _ r r).mpr ⟨(s0.name, l), dget_mem _ _ _ hdg, hmem, hmem⟩

/-- Witness for C3 on Scenario A: Red and Blue share StopY, and Red serves
a stop, so the symmetry and self-adjacency conclusions hold concretely. -/
theorem c3_witness :
    ("Blue" ∈ adjOf (buildGraph (stops_to_routes scenarioRoutes scenarioStops)) "Red") ∧
      ("Red" ∈ adjOf (buildGraph (stops_to_routes scenarioRoutes scenarioStops)) "Blue") ∧
      ("Red" ∈ adjOf (buildGraph (stops_to_routes scenarioRoutes scenarioStops)) "Red") :=
  ⟨by decide,
   (c3_graph_symmetric_reflexive scenarioRoutes scenarioStops).1 "Red" "Blue" (by decide),
   (c3_graph_symmetric_reflexive scenarioRoutes scenarioStops).2 "Red" (by decide) (by decide)⟩

/-- C10: a route whose stop list holds two distinct stop records with the
same name appears twice in that name's index entry (one entry per stop
record), and `print_stats` then lists the name as a stop connecting two or
more routes even though only one route serves it. -/
theorem c10_duplicate_names_double_count (route_ids : List String)
    (all_stops : String → List Stop) (r name : String)
    (hnd : route_ids.Nodup) (hmem : r ∈ route_ids) :
    countOcc r ((dget (stops_to_routes route_ids all_stops) name).getD []) =
        countName name (all_stops r) ∧
      (2 ≤ countName name (all_stops r) →
        name ∈ (print_stats route_ids all_stops).transfers.map Prod.fst) := by
  have hc := count_stops_to_routes route_ids all_stops name r
  rw [countOcc_eq_one_of_nodup r route_ids hnd hmem, one_mul] at hc
  refine ⟨hc, ?_⟩
  intro h2
  rw [← hc] at h2
  rcases hdg : dget (stops_to_routes route_ids all_stops) name with _ | l
  · rw [hdg] at h2; simp [countOcc] at h2
  · rw [hdg] at h2
    simp only [Option.getD_some] at h2
    have hlen : 1 < l.length := by
      have := countOcc_le_length r l
      omega
    have hfil : (name, l) ∈
        (stops_to_routes route_ids all_stops).filter (fun p => p.2.length > 1) :=
      List.mem_filter.mpr ⟨dget_mem _ _ _ hdg, by simpa using hlen⟩
    simp only [print_stats]
    exact List.mem_map.mpr ⟨(name, l), hfil, rfl⟩

/-- Witness for C10: route Red with stop records `r-x1`/`r-x2`, both named
StopX; the index entry for StopX is `[Red, Red]` and `print_stats` reports
StopX as a transfer stop. -/
theorem c10_witness :
    dupRoutes.Nodup ∧ "Red" ∈ dupRoutes ∧
      countOcc "Red" ((dget (stops_to_routes dupRoutes dupStops) "StopX").getD []) =
          countName "StopX" (dupStops "Red") ∧
      "StopX" ∈ (print_stats dupRoutes dupStops).transfers.map Prod.fst :=
  ⟨by decide, by decide,
   (c10_duplicate_names_double_count dupRoutes dupStops "Red" "StopX"
      (by decide) (by decide)).1,
   (c10_duplicate_names_double_count dupRoutes dupStops "Red" "StopX"
      (by decide) (by decide)).2 (by decide)⟩

/-! ## Termination of the search loop -/

/-- Number of graph keys not yet in the visited set: together with the
queue length this is the decreasing measure of the search loop. -/
def unvisited (g : List (String × List String)) (visited : List String) : Nat :=
  ((keysOf g).filter (fun k => decide (k ∉ visited))).length

theorem filter_length_mono (p q : String → Bool) (h : ∀ x, q x = true → p x = true) :
    ∀ ks : List String, (ks.filter q).length ≤ (ks.filter p).length := by
  intro ks
  induction ks with
  | nil => simp
  | cons k t ih =>
    simp only [List.filter_cons]
    by_cases hq : q k = true
    · rw [if_pos hq, if_pos (h k hq)]
      simpa using ih
    · rw [if_neg hq]
      by_cases hp : p k = true
      · rw [if_pos hp]
        exact le_trans ih (by simp)
      · rw [if_neg hp]
        exact ih

theorem filter_length_succ_le (p q : String → Bool) (h : ∀ x, q x = true → p x = true)
    (nb : String) (hq : q nb = false) (hp : p nb = true) :
    ∀ ks : List String, nb ∈ ks → (ks.filter q).length + 1 ≤ (ks.filter p).length := by
  intro ks
  induction ks with
  | nil => simp
  | cons k t ih =>
    intro hmem
    simp only [List.filter_cons]
    rcases List.mem_cons.mp hmem with rfl | hmem'
    · rw [if_neg (by simp [hq]), if_pos hp]
      have := filter_length_mono p q h t
      simp only [List.length_cons]
      omega
    · have hrec := ih hmem'
      by_cases hqk : q k = true
      · rw [if_pos hqk, if_pos (h k hqk)]
        simp only [List.length_cons]
        omega
      · rw [if_neg hqk]
        by_cases hpk : p k = true
        · rw [if_pos hpk]
          simp only [List.length_cons]
          omega
        · rw [if_neg hpk]
          exact hrec

theorem mem_keysOf_of_isSome (g : List (String × List String)) (x : String)
    (h : (dget g x).isSome = true) : x ∈ keysOf g := by
  induction g with
  | nil => simp [dget] at h
  | cons p rest ih =>
    obtain ⟨k, v⟩ := p
    by_cases hk : k = x
    · subst hk; simp [keysOf]
    · simp only [dget, if_neg hk] at h
      have := ih h
      simp only [keysOf, List.map_cons] at this ⊢
      exact List.mem_cons_of_mem _ this

theorem unvisited_nil (g : List (String × List String)) : unvisited g [] = g.length := by
  simp [unvisited, keysOf]

theorem unvisited_insert (g : List (String × List String)) (visited : List String)
    (nb : String) (hkey : nb ∈ keysOf g) (hnv : nb ∉ visited) :
    unvisited g (visited ++ [nb]) + 1 ≤ unvisited g visited := by
  refine filter_length_succ_le _ _ ?_ nb ?_ ?_ (keysOf g) hkey
  · intro x hx
    simp only [decide_eq_true_eq] at hx ⊢
    intro hmem
    exact hx (List.mem_append.mpr (Or.inl hmem))
  · simp [List.mem_append]
  · simpa using hnv

theorem pn_pres (P : String → Prop) (e : String) (path : List String) :
    ∀ (nbs visited : List String) (queue : List (String × List String))
      (visited' : List String) (queue' : List (String × List String)),
      (∀ nb ∈ nbs, P nb) → (∀ q ∈ queue, P q.1) →
      processNeighbors e path nbs visited queue = (none, visited', queue') →
      ∀ q ∈ queue', P q.1 := by
  intro nbs
  induction nbs with
  | nil =>
    intro visited queue visited' queue' _ hq heq
    simp only [processNeighbors, Prod.mk.injEq] at heq
    rw [← heq.2.2]
    exact hq
  | cons nb rest ih =>
    intro visited queue visited' queue' hnb hq heq
    simp only [processNeighbors] at heq
    by_cases he : nb = e
    · rw [if_pos he] at heq; simp at heq
    · rw [if_neg he] at heq
      by_cases hv : nb ∈ visited
      · rw [if_pos hv] at heq
        exact ih _ _ _ _ (fun x hx => hnb x (List.mem_cons_of_mem _ hx)) hq heq
      · rw [if_neg hv] at heq
        refine ih _ _ _ _ (fun x hx => hnb x (List.mem_cons_of_mem _ hx)) ?_ heq
        intro q hq2
        rcases List.mem_cons.mp hq2 with rfl | h3
        · exact hnb nb (List.mem_cons_self _ _)
        · exact hq q h3

theorem pn_measure (g : List (String × List String)) (e : String) (path : List String) :
    ∀ (nbs visited : List String) (queue : List (String × List String))
      (visited' : List String) (queue' : List (String × List String)),
      (∀ nb ∈ nbs, nb ∈ keysOf g) →
      processNeighbors e path nbs visited queue = (none, visited', queue') →
      unvisited g visited' + queue'.length ≤ unvisited g visited + queue.length := by
  intro nbs
  induction nbs with
  | nil =>
    intro visited queue visited' queue' _ heq
    simp only [processNeighbors, Prod.mk.injEq] at heq
    rw [← heq.2.1, ← heq.2.2]
  | cons nb rest ih =>
    intro visited queue visited' queue' hnb heq
    simp only [processNeighbors] at heq
    by_cases he : nb = e
    · rw [if_pos he] at heq; simp at heq
    · rw [if_neg he] at heq
      by_cases hv : nb ∈ visited
      · rw [if_pos hv] at heq
        exact ih _ _ _ _ (fun x hx => hnb x (List.mem_cons_of_mem _ hx)) heq
      · rw [if_neg hv] at heq
        have hrec := ih _ _ _ _ (fun x hx => hnb x (List.mem_cons_of_mem _ hx)) heq
        have hins := unvisited_insert g visited nb (hnb nb (List.mem_cons_self _ _)) hv
        simp only [List.length_cons] at hrec
        omega

theorem pn_nofind (e : String) (path : List String) :
    ∀ (nbs visited : List String) (queue : List (String × List String)),
      (∀ nb ∈ nbs, nb ≠ e) →
      (processNeighbors e path nbs visited queue).1 = none := by
  intro nbs
  induction nbs with
  | nil => intro visited queue _; simp [processNeighbors]
  | cons nb rest ih =>
    intro visited queue hnb
    simp only [processNeighbors]
    rw [if_neg (hnb nb (List.mem_cons_self _ _))]
    by_cases hv : nb ∈ visited
    · rw [if_pos hv]
      exact ih _ _ (fun x hx => hnb x (List.mem_cons_of_mem _ hx))
    · rw [if_neg hv]
      exact ih _ _ (fun x hx => hnb x (List.mem_cons_of_mem _ hx))

/-- The search loop never runs out of fuel once the fuel covers the
key-count-plus-queue measure: the visited set makes the measure strictly
decrease at every iteration. -/
theorem searchLoop_total (g : List (String × List String)) (e : String)
    (hcl : ClosedGraph g) :
    ∀ (fuel : Nat) (visited : List String) (queue : List (String × List String)),
      (∀ q ∈ queue, (dget g q.1).isSome = true) →
      unvisited g visited + queue.length ≤ fuel →
      searchLoop g e fuel visited queue ≠ none := by
  intro fuel
  induction fuel with
  | zero =>
    intro visited queue hq hm
    cases queue with
    | nil => simp [searchLoop]
    | cons qp rest =>
      simp only [List.length_cons] at hm
      exfalso
      omega
  | succ fuel ih =>
    intro visited queue hq hm
    cases queue with
    | nil => simp [searchLoop]
    | cons qp rest =>
      obtain ⟨vertex, path⟩ := qp
      simp only [searchLoop]
      by_cases hv : vertex = e
      · rw [if_pos hv]; simp
      · rw [if_neg hv]
        have hvs : (dget g vertex).isSome = true := hq _ (List.mem_cons_self _ _)
        rcases hdg : dget g vertex with _ | nbs
        · rw [hdg] at hvs; simp at hvs
        · simp only []
          rcases hpn : processNeighbors e path nbs visited rest with ⟨o, visited', queue'⟩
          cases o with
          | some p => simp
          | none =>
            simp only []
            apply ih
            · exact pn_pres _ e path nbs visited rest visited' queue'
                (fun nb hnb => hcl vertex nbs hdg nb hnb)
                (fun q hq2 => hq q (List.mem_cons_of_mem _ hq2)) hpn
            · have hms := pn_measure g e path nbs visited rest visited' queue'
                (fun nb hnb => mem_keysOf_of_isSome g nb (hcl vertex nbs hdg nb hnb)) hpn
              simp only [List.length_cons] at hm
              omega

/-- If a set of routes `C` contains the vertex of every queue entry, is
closed under adjacency and misses the target, the search loop exhausts the
queue and falls through to the not-found diagnostic. -/
theorem searchLoop_exhausts (g : List (String × List String)) (e : String)
    (C : List String) (hcl : ClosedGraph g)
    (hC : ∀ v ∈ C, ∀ x ∈ adjOf g v, x ∈ C) (he : e ∉ C) :
    ∀ (fuel : Nat) (visited : List String) (queue : List (String × List String)),
      (∀ q ∈ queue, (dget g q.1).isSome = true) →
      (∀ q ∈ queue, q.1 ∈ C) →
      unvisited g visited + queue.length ≤ fuel →
      searchLoop g e fuel visited queue = some LoopRes.exhausted := by
  intro fuel
  induction fuel with
  | zero =>
    intro visited queue hq hqC hm
    cases queue with
    | nil => simp [searchLoop]
    | cons qp rest =>
      simp only [List.length_cons] at hm
      exfalso
      omega
  | succ fuel ih =>
    intro visited queue hq hqC hm
    cases queue with
    | nil => simp [searchLoop]
    | cons qp rest =>
      obtain ⟨vertex, path⟩ := qp
      have hvC : vertex ∈ C := hqC _ (List.mem_cons_self _ _)
      have hv : ¬ vertex = e := fun hve => he (hve ▸ hvC)
      simp only [searchLoop]
      rw [if_neg hv]
      have hvs : (dget g vertex).isSome = true := hq _ (List.mem_cons_self _ _)
      rcases hdg : dget g vertex with _ | nbs
      · rw [hdg] at hvs; simp at hvs
      · have hnbC : ∀ nb ∈ nbs, nb ∈ C := by
          intro nb hnb
          apply hC vertex hvC
          rw [adjOf, hdg]
          simpa using hnb
        simp only []
        rcases hpn : processNeighbors e path nbs visited rest with ⟨o, visited', queue'⟩
        have ho : o = none := by
          have h0 := pn_nofind e path nbs visited rest
            (fun nb hnb hne => he (hne ▸ hnbC nb hnb))
          rw [hpn] at h0
          exact h0
        subst ho
        simp only []
        apply ih
        · exact pn_pres _ e path nbs visited rest visited' queue'
            (fun nb hnb => hcl vertex nbs hdg nb hnb)
            (fun q hq2 => hq q (List.mem_cons_of_mem _ hq2)) hpn
        · exact pn_pres _ e path nbs visited rest visited' queue'
            hnbC (fun q hq2 => hqC q (List.mem_cons_of_mem _ hq2)) hpn
        · have hms := pn_measure g e path nbs visited rest visited' queue'
            (fun nb hnb => mem_keysOf_of_isSome g nb (hcl vertex nbs hdg nb hnb)) hpn
          simp only [List.length_cons] at hm
          omega

/-! ## Claims about find_path -/

/-- C5: when a requested stop name is absent from the Stop-Route Index,
`find_path` raises a `KeyError` (a `LookupError`) carrying the unresolved
stop name — the first lookup failing names the start stop, otherwise the
failing end lookup names the end stop — and no path is returned. -/
theorem c5_unknown_stop_lookup_error (route_ids : List String)
    (all_stops : String → List Stop) (stop1 stop2 : String) :
    (dget (stops_to_routes route_ids all_stops) stop1 = none →
        find_path stop1 stop2 route_ids all_stops = Except.error (PyErr.keyError stop1)) ∧
      (∀ l1, dget (stops_to_routes route_ids all_stops) stop1 = some l1 →
        dget (stops_to_routes route_ids all_stops) stop2 = none →
        find_path stop1 stop2 route_ids all_stops = Except.error (PyErr.keyError stop2)) := by
  constructor
  · intro h1
    simp only [find_path]
    rw [h1]
  · intro l1 h1 h2
    simp only [find_path]
    rw [h1]
    simp only []
    rw [h2]

/-- Witness for C5: the stop name Nowhere is served by no route of
Scenario A, and `find_path` fails with `KeyError("Nowhere")`. -/
theorem c5_witness :
    dget (stops_to_routes scenarioRoutes scenarioStops) "Nowhere" = none ∧
      find_path "Nowhere" "StopX" scenarioRoutes scenarioStops =
        Except.error (PyErr.keyError "Nowhere") :=
  ⟨by decide,
   (c5_unknown_stop_lookup_error scenarioRoutes scenarioStops "Nowhere" "StopX").1 (by decide)⟩

/-- C6: when both stops resolve to the same route list, `find_path` returns
that list at once, without running the search loop. -/
theorem c6_equal_route_lists_short_circuit (route_ids : List String)
    (all_stops : String → List Stop) (stop1 stop2 : String) (l : List String)
    (h1 : dget (stops_to_routes route_ids all_stops) stop1 = some l)
    (h2 : dget (stops_to_routes route_ids all_stops) stop2 = some l) :
    find_path stop1 stop2 route_ids all_stops = Except.ok (PathOut.path l) := by
  simp only [find_path]
  rw [h1]
  simp only []
  rw [h2]
  simp

/-- Witness for C6: both ends resolve to `["Red"]` and the result is that
list. -/
theorem c6_witness :
    dget (stops_to_routes scenarioRoutes scenarioStops) "StopX" = some ["Red"] ∧
      find_path "StopX" "StopX" scenarioRoutes scenarioStops =
        Except.ok (PathOut.path ["Red"]) :=
  ⟨by decide,
   c6_equal_route_lists_short_circuit scenarioRoutes scenarioStops "StopX" "StopX" ["Red"]
     (by decide) (by decide)⟩

/-- C9: for resolvable stops the search loop of `find_path` terminates —
the fuel `graph.length + 1` supplied by the model is never exhausted, since
the visited set bounds how often a route can be enqueued. -/
theorem c9_search_terminates (route_ids : List String) (all_stops : String → List Stop)
    (stop1 stop2 : String)
    (h1 : (dget (stops_to_routes route_ids all_stops) stop1).isSome = true)
    (h2 : (dget (stops_to_routes route_ids all_stops) stop2).isSome = true) :
    find_path stop1 stop2 route_ids all_stops ≠ Except.error PyErr.fuelOut := by
  rcases hl1 : dget (stops_to_routes route_ids all_stops) stop1 with _ | l1
  · rw [hl1] at h1; simp at h1
  rcases hl2 : dget (stops_to_routes route_ids all_stops) stop2 with _ | l2
  · rw [hl2] at h2; simp at h2
  simp only [find_path]
  rw [hl1]
  simp only []
  rw [hl2]
  simp only []
  by_cases heq : l1 = l2
  · rw [if_pos heq]
    simp
  · rw [if_neg heq]
    cases l1 with
    | nil => simp
    | cons s t1 =>
      cases l2 with
      | nil => simp
      | cons e t2 =>
        simp only []
        rcases hgs : dget (buildGraph (stops_to_routes route_ids all_stops)) s with _ | adjS
        · simp
        · simp only []
          cases adjS with
          | nil => simp
          | cons a0 arest =>
            simp only []
            have hq0 : ∀ q ∈ [((a0 : String), [s])],
                (dget (buildGraph (stops_to_routes route_ids all_stops)) q.1).isSome = true := by
              intro q hq2
              have hq3 : q = (a0, [s]) := List.mem_singleton.mp hq2
              subst hq3
              exact buildGraph_closed _ s (a0 :: arest) hgs a0 (List.mem_cons_self _ _)
            have hm0 : unvisited (buildGraph (stops_to_routes route_ids all_stops)) [] +
                [((a0 : String), [s])].length ≤
                (buildGraph (stops_to_routes route_ids all_stops)).length + 1 := by
              rw [unvisited_nil]
              simp
            have htot := searchLoop_total (buildGraph (stops_to_routes route_ids all_stops)) e
              (buildGraph_closed _)
              ((buildGraph (stops_to_routes route_ids all_stops)).length + 1)
              [] [(a0, [s])] hq0 hm0
            rcases hres : searchLoop (buildGraph (stops_to_routes route_ids all_stops)) e
                ((buildGraph (stops_to_routes route_ids all_stops)).length + 1)
                [] [(a0, [s])] with _ | r
            · exact absurd hres htot
            · cases r <;> simp

/-- Witness for C9 on Scenario A: both ends resolve and the search does not
run out of fuel. -/
theorem c9_witness :
    (dget (stops_to_routes scenarioRoutes scenarioStops) "StopX").isSome = true ∧
      (dget (stops_to_routes scenarioRoutes scenarioStops) "StopZ").isSome = true ∧
      find_path "StopX" "StopZ" scenarioRoutes scenarioStops ≠ Except.error PyErr.fuelOut :=
  ⟨by decide, by decide,
   c9_search_terminates scenarioRoutes scenarioStops "StopX" "StopZ" (by decide) (by decide)⟩

/-- C4: for resolvable stops with different route lists whose first routes
lie in different connected components — witnessed by a set `C` of routes
that contains the origin route, misses the target route and is closed
under adjacency — `find_path` ends with the not-found outcome naming both
stops, and returns no route sequence. -/
theorem c4_disconnected_path_not_found (route_ids : List String)
    (all_stops : String → List Stop) (stop1 stop2 s e : String) (t1 t2 C : List String)
    (h1 : dget (stops_to_routes route_ids all_stops) stop1 = some (s :: t1))
    (h2 : dget (stops_to_routes route_ids all_stops) stop2 = some (e :: t2))
    (hne : s :: t1 ≠ e :: t2)
    (hsC : s ∈ C) (heC : e ∉ C)
    (hC : ∀ v ∈ C, ∀ x ∈ adjOf (buildGraph (stops_to_routes route_ids all_stops)) v, x ∈ C) :
    find_path stop1 stop2 route_ids all_stops = Except.ok (PathOut.notFound stop1 stop2) := by
  have hpair : (stop1, s :: t1) ∈ stops_to_routes route_ids all_stops := dget_mem _ _ _ h1
  have hss : s ∈ adjOf (buildGraph (stops_to_routes route_ids all_stops)) s :=
    (mem_adj_buildGraph _ s s).mpr
      ⟨(stop1, s :: t1), hpair, List.mem_cons_self _ _, List.mem_cons_self _ _⟩
  rcases hgs : dget (buildGraph (stops_to_routes route_ids all_stops)) s with _ | adjS
  · rw [adjOf, hgs] at hss
    simp at hss
  · have hsadj : s ∈ adjS := by
      rw [adjOf, hgs] at hss
      simpa using hss
    cases adjS with
    | nil => simp at hsadj
    | cons a0 arest =>
      have ha0C : a0 ∈ C := by
        apply hC s hsC
        rw [adjOf, hgs]
        simp
      have hq0 : ∀ q ∈ [((a0 : String), [s])],
          (dget (buildGraph (stops_to_routes route_ids all_stops)) q.1).isSome = true := by
        intro q hq2
        have hq3 : q = (a0, [s]) := List.mem_singleton.mp hq2
        subst hq3
        exact buildGraph_closed _ s (a0 :: arest) hgs a0 (List.mem_cons_self _ _)
      have hqC0 : ∀ q ∈ [((a0 : String), [s])], q.1 ∈ C := by
        intro q hq2
        have hq3 : q = (a0, [s]) := List.mem_singleton.mp hq2
        subst hq3
        exact ha0C
      have hm0 : unvisited (buildGraph (stops_to_routes route_ids all_stops)) [] +
          [((a0 : String), [s])].length ≤
          (buildGraph (stops_to_routes route_ids all_stops)).length + 1 := by
        rw [unvisited_nil]
        simp
      have hex := searchLoop_exhausts (buildGraph (stops_to_routes route_ids all_stops)) e C
        (buildGraph_closed _) hC heC
        ((buildGraph (stops_to_routes route_ids all_stops)).length + 1)
        [] [(a0, [s])] hq0 hqC0 hm0
      simp only [find_path]
      rw [h1]
      simp only []
      rw [h2]
      simp only []
      rw [if_neg hne]
      rw [hgs]
      simp only []
      rw [hex]

/-- Witness for C4: Red serves only StopA, Blue serves only StopZ; the set
`C = [Red]` separates the components and the path request fails with the
not-found outcome naming both stops. -/
theorem c4_witness :
    dget (stops_to_routes discRoutes discStops) "StopA" = some ["Red"] ∧
      dget (stops_to_routes discRoutes discStops) "StopZ" = some ["Blue"] ∧
      find_path "StopA" "StopZ" discRoutes discStops =
        Except.ok (PathOut.notFound "StopA" "StopZ") :=
  ⟨by decide, by decide,
   c4_disconnected_path_not_found discRoutes discStops "StopA" "StopZ" "Red" "Blue"
     [] [] ["Red"] (by decide) (by decide) (by decide) (by decide) (by decide) (by decide)⟩

/-! ## The most/least computation of print_stats -/

/-- The running-max fold on its own. -/
def foldMost (count : String → Nat) (ids : List String) (a : Option (String × Nat)) :
    Option (String × Nat) :=
  ids.foldl (fun acc r => stepMost acc r (count r)) a

/-- The running-min fold on its own. -/
def foldLeast (count : String → Nat) (ids : List String) (a : Option (String × Nat)) :
    Option (String × Nat) :=
  ids.foldl (fun acc r => stepLeast acc r (count r)) a

theorem foldMost_cons (count : String → Nat) (r : String) (t : List String)
    (a : Option (String × Nat)) :
    foldMost count (r :: t) a = foldMost count t (stepMost a r (count r)) := rfl

theorem foldLeast_cons (count : String → Nat) (r : String) (t : List String)
    (a : Option (String × Nat)) :
    foldLeast count (r :: t) a = foldLeast count t (stepLeast a r (count r)) := rfl

/-- The paired loop computes the two independent folds componentwise. -/
theorem mostLeastLoop_eq (count : String → Nat) :
    ∀ (ids : List String) (a b : Option (String × Nat)),
      ids.foldl (fun acc r => (stepMost acc.1 r (count r), stepLeast acc.2 r (count r))) (a, b) =
        (foldMost count ids a, foldLeast count ids b) := by
  intro ids
  induction ids with
  | nil => intro a b; rfl
  | cons i t ih =>
    intro a b
    simp only [List.foldl_cons]
    exact ih _ _

theorem foldMost_spec (count : String → Nat) :
    ∀ (l : List String) (rm : String) (m : Nat), count rm = m →
      ∃ rM nM, foldMost count l (some (rm, m)) = some (rM, nM) ∧
        count rM = nM ∧ m ≤ nM ∧ (∀ r ∈ l, count r ≤ nM) ∧
        ((rM = rm ∧ nM = m) ∨
          ∃ pre suf, l = pre ++ rM :: suf ∧ m < nM ∧ ∀ r ∈ pre, count r < nM) := by
  intro l
  induction l with
  | nil =>
    intro rm m hrm
    exact ⟨rm, m, rfl, hrm, le_refl m, by simp, Or.inl ⟨rfl, rfl⟩⟩
  | cons r t ih =>
    intro rm m hrm
    rw [foldMost_cons]
    by_cases hgt : count r > m
    · have hstep : stepMost (some (rm, m)) r (count r) = some (r, count r) := by
        simp [stepMost, hgt]
      rw [hstep]
      obtain ⟨rM, nM, heq, hcount, hle, hall, hdisj⟩ := ih r (count r) rfl
      refine ⟨rM, nM, heq, hcount, by omega, ?_, ?_⟩
      · intro x hx
        rcases List.mem_cons.mp hx with rfl | hx'
        · exact hle
        · exact hall x hx'
      · right
        rcases hdisj with ⟨hrM, hnM⟩ | ⟨pre, suf, hsplit, hlt, hpre⟩
        · refine ⟨[], t, by rw [hrM]; rfl, by omega, by simp⟩
        · refine ⟨r :: pre, suf, by rw [hsplit]; rfl, by omega, ?_⟩
          intro x hx
          rcases List.mem_cons.mp hx with rfl | hx'
          · exact hlt
          · exact hpre x hx'
    · have hstep : stepMost (some (rm, m)) r (count r) = some (rm, m) := by
        simp [stepMost, hgt]
      rw [hstep]
      obtain ⟨rM, nM, heq, hcount, hle, hall, hdisj⟩ := ih rm m hrm
      refine ⟨rM, nM, heq, hcount, hle, ?_, ?_⟩
      · intro x hx
        rcases List.mem_cons.mp hx with rfl | hx'
        · omega
        · exact hall x hx'
      · rcases hdisj with hl | ⟨pre, suf, hsplit, hlt, hpre⟩
        · exact Or.inl hl
        · refine Or.inr ⟨r :: pre, suf, by rw [hsplit]; rfl, hlt, ?_⟩
          intro x hx
          rcases List.mem_cons.mp hx with rfl | hx'
          · omega
          · exact hpre x hx'

theorem foldLeast_spec (count : String → Nat) :
    ∀ (l : List String) (rl : String) (m : Nat), count rl = m →
      ∃ rL nL, foldLeast count l (some (rl, m)) = some (rL, nL) ∧
        count rL = nL ∧ nL ≤ m ∧ (∀ r ∈ l, nL ≤ count r) ∧
        ((rL = rl ∧ nL = m) ∨
          ∃ pre suf, l = pre ++ rL :: suf ∧ nL < m ∧ ∀ r ∈ pre, nL < count r) := by
  intro l
  induction l with
  | nil =>
    intro rl m hrl
    exact ⟨rl, m, rfl, hrl, le_refl m, by simp, Or.inl ⟨rfl, rfl⟩⟩
  | cons r t ih =>
    intro rl m hrl
    rw [foldLeast_cons]
    by_cases hlt0 : count r < m
    · have hstep : stepLeast (some (rl, m)) r (count r) = some (r, count r) := by
        simp [stepLeast, hlt0]
      rw [hstep]
      obtain ⟨rL, nL, heq, hcount, hge, hall, hdisj⟩ := ih r (count r) rfl
      refine ⟨rL, nL, heq, hcount, by omega, ?_, ?_⟩
      · intro x hx
        rcases List.mem_cons.mp hx with rfl | hx'
        · exact hge
        · exact hall x hx'
      · right
        rcases hdisj with ⟨hrL, hnL⟩ | ⟨pre, suf, hsplit, hlt, hpre⟩
        · refine ⟨[], t, by rw [hrL]; rfl, by omega, by simp⟩
        · refine ⟨r :: pre, suf, by rw [hsplit]; rfl, by omega, ?_⟩
          intro x hx
          rcases List.mem_cons.mp hx with rfl | hx'
          · exact hlt
          · exact hpre x hx'
    · have hstep : stepLeast (some (rl, m)) r (count r) = some (rl, m) := by
        simp [stepLeast, hlt0]
      rw [hstep]
      obtain ⟨rL, nL, heq, hcount, hge, hall, hdisj⟩ := ih rl m hrl
      refine ⟨rL, nL, heq, hcount, hge, ?_, ?_⟩
      · intro x hx
        rcases List.mem_cons.mp hx with rfl | hx'
        · omega
        · exact hall x hx'
      · rcases hdisj with hl | ⟨pre, suf, hsplit, hlt, hpre⟩
        · exact Or.inl hl
        · refine Or.inr ⟨r :: pre, suf, by rw [hsplit]; rfl, hlt, ?_⟩
          intro x hx
          rcases List.mem_cons.mp hx with rfl | hx'
          · omega
          · exact hpre x hx'

/-! ## Claims C7, C8, C1 -/

/-- C7: on a non-empty route set the reported most-stops count dominates
every route's stop count, the least-stops count is dominated by every
route's stop count, and each reported route is the first route encountered
with its extremal count (every earlier route has a strictly smaller,
respectively strictly larger, count). -/
theorem c7_stats_extremes (route_ids : List String) (all_stops : String → List Stop)
    (hne : route_ids ≠ []) :
    ∃ rM nM rL nL,
      (print_stats route_ids all_stops).most = some (rM, nM) ∧
      (print_stats route_ids all_stops).least = some (rL, nL) ∧
      nM = (all_stops rM).length ∧ nL = (all_stops rL).length ∧
      (∀ r ∈ route_ids, (all_stops r).length ≤ nM ∧ nL ≤ (all_stops r).length) ∧
      (∃ pre suf, route_ids = pre ++ rM :: suf ∧ ∀ r ∈ pre, (all_stops r).length < nM) ∧
      (∃ pre suf, route_ids = pre ++ rL :: suf ∧ ∀ r ∈ pre, nL < (all_stops r).length) := by
  cases route_ids with
  | nil => exact absurd rfl hne
  | cons r1 t =>
    have hmost : (print_stats (r1 :: t) all_stops).most =
        foldMost (fun r => (all_stops r).length) t (some (r1, (all_stops r1).length)) := by
      simp only [print_stats, mostLeastLoop, mostLeastLoop_eq]
      rw [foldMost_cons]
      rfl
    have hleast : (print_stats (r1 :: t) all_stops).least =
        foldLeast (fun r => (all_stops r).length) t (some (r1, (all_stops r1).length)) := by
      simp only [print_stats, mostLeastLoop, mostLeastLoop_eq]
      rw [foldLeast_cons]
      rfl
    obtain ⟨rM, nM, heqM, hcntM, hleM, hallM, hdisjM⟩ :=
      foldMost_spec (fun r => (all_stops r).length) t r1 ((all_stops r1).length) rfl
    obtain ⟨rL, nL, heqL, hcntL, hgeL, hallL, hdisjL⟩ :=
      foldLeast_spec (fun r => (all_stops r).length) t r1 ((all_stops r1).length) rfl
    refine ⟨rM, nM, rL, nL, by rw [hmost, heqM], by rw [hleast, heqL],
      hcntM.symm, hcntL.symm, ?_, ?_, ?_⟩
    · intro r hr
      rcases List.mem_cons.mp hr with rfl | hr'
      · exact ⟨hleM, hgeL⟩
      · exact ⟨hallM r hr', hallL r hr'⟩
    · rcases hdisjM with ⟨hrM, _⟩ | ⟨pre, suf, hsplit, hlt, hpre⟩
      · exact ⟨[], t, by rw [hrM]; rfl, by simp⟩
      · refine ⟨r1 :: pre, suf, by rw [hsplit]; rfl, ?_⟩
        intro x hx
        rcases List.mem_cons.mp hx with rfl | hx'
        · exact hlt
        · exact hpre x hx'
    · rcases hdisjL with ⟨hrL, _⟩ | ⟨pre, suf, hsplit, hlt, hpre⟩
      · exact ⟨[], t, by rw [hrL]; rfl, by simp⟩
      · refine ⟨r1 :: pre, suf, by rw [hsplit]; rfl, ?_⟩
        intro x hx
        rcases List.mem_cons.mp hx with rfl | hx'
        · exact hlt
        · exact hpre x hx'

/-- Witness for C7 on Scenario A: both routes have two stops, so Red — the
first route — is reported for both extremes. -/
theorem c7_witness :
    scenarioRoutes ≠ [] ∧
      ∃ rM nM rL nL,
        (print_stats scenarioRoutes scenarioStops).most = some (rM, nM) ∧
        (print_stats scenarioRoutes scenarioStops).least = some (rL, nL) ∧
        nM = (scenarioStops rM).length ∧ nL = (scenarioStops rL).length ∧
        (∀ r ∈ scenarioRoutes,
          (scenarioStops r).length ≤ nM ∧ nL ≤ (scenarioStops r).length) ∧
        (∃ pre suf, scenarioRoutes = pre ++ rM :: suf ∧
          ∀ r ∈ pre, (scenarioStops r).length < nM) ∧
        (∃ pre suf, scenarioRoutes = pre ++ rL :: suf ∧
          ∀ r ∈ pre, nL < (scenarioStops r).length) :=
  ⟨by decide, c7_stats_extremes scenarioRoutes scenarioStops (by decide)⟩

/-- C8 counterexample: with route argument foo (normalized FOO) unknown and
both the stats flag and a path request set, `main` prints the unknown-route
diagnostic and performs neither the stats nor the path computation — the
claim that both computations still run fails on this input. -/
theorem c8_counterexample :
    MainEvent.unknownRoute "FOO" ∈
        mainEvents ⟨"foo", true, "StopX-StopY"⟩ ["RED", "BLUE"] ∧
      MainEvent.ranStats ∉ mainEvents ⟨"foo", true, "StopX-StopY"⟩ ["RED", "BLUE"] ∧
      MainEvent.ranPath "StopX-StopY" ∉
        mainEvents ⟨"foo", true, "StopX-StopY"⟩ ["RED", "BLUE"] := by
  decide

/-- C8 (amended): when the named route is not among the fetched route
identifiers, `main` prints the unknown-route diagnostic and returns
immediately — the requested stats and path computations are skipped, not
performed. -/
theorem c8_unknown_route_aborts (args : CliArgs) (route_ids : List String)
    (hid : args.id ≠ "") (hunk : pyUpper args.id ∉ route_ids) :
    mainEvents args route_ids =
        [MainEvent.listedRoutes, MainEvent.unknownRoute (pyUpper args.id)] ∧
      MainEvent.ranStats ∉ mainEvents args route_ids ∧
      (∀ p, MainEvent.ranPath p ∉ mainEvents args route_ids) := by
  have hev : mainEvents args route_ids =
      [MainEvent.listedRoutes, MainEvent.unknownRoute (pyUpper args.id)] := by
    simp only [mainEvents]
    rw [if_neg hid, if_pos hunk]
  refine ⟨hev, ?_, ?_⟩
  · rw [hev]
    simp
  · intro p
    rw [hev]
    simp

/-- Witness for C8 (amended) at a concrete unknown route name. -/
theorem c8_witness :
    ("foo" : String) ≠ "" ∧ pyUpper "foo" ∉ ["RED", "BLUE"] ∧
      mainEvents ⟨"foo", false, ""⟩ ["RED", "BLUE"] =
        [MainEvent.listedRoutes, MainEvent.unknownRoute "FOO"] :=
  ⟨by decide, by decide,
   ((c8_unknown_route_aborts ⟨"foo", false, ""⟩ ["RED", "BLUE"]
       (by decide) (by decide)).1).trans (by decide)⟩

/-- C1 (code bug): on the network Red=[StopX, StopY], Blue=[StopY], the
request StopY→StopX resolves (lists `[Red, Blue]` and `[Red]` differ), the
origin route and the target route are both Red, and `find_path` returns
`[Red, Red]` — one route hop — although the one-element sequence `[Red]`
already connects the origin route to the target route in the adjacency
graph with zero hops.  The returned path therefore does not have minimum
route-hop count.  (The loop also pops the most recently appended queue
entry, `queue.pop()`, i.e. it explores depth-first despite the
`# BFS search` comment, so longer-than-minimal paths arise in general.) -/
theorem c1_returned_path_not_minimal :
    dget (stops_to_routes cexRoutes cexStops) "StopY" = some ["Red", "Blue"] ∧
      dget (stops_to_routes cexRoutes cexStops) "StopX" = some ["Red"] ∧
      find_path "StopY" "StopX" cexRoutes cexStops =
        Except.ok (PathOut.path ["Red", "Red"]) ∧
      connectsSeq (buildGraph (stops_to_routes cexRoutes cexStops)) "Red" "Red" ["Red"] = true ∧
      (["Red"] : List String).length < (["Red", "Red"] : List String).length :=
  ⟨by decide, by decide, by decide, by decide, by decide⟩
